import Mathlib

/-!
Verification of the ECS EC2-vs-Fargate comparison tool
(`src/python-tool/fargate-comparison-tool.py`).

The Python source is shallowly embedded below: the fixed Fargate size
catalog, the size normalizer `adjust_task_size`, the per-cluster usage
aggregator `add_to_running_total` / `get_container_stats`, the memoized
price lookups `get_ec2_price` / `get_fargate_cpu_price` /
`get_fargate_memory_price` (with the shared `price_history` dictionary
passed as explicit state and remote queries counted), and the EC2 report
row builder `create_ec2_sheet`.

Python floats are modelled as rationals (all catalog boundaries and the
inputs of the claims are exactly representable); Python ints as `Int`;
the `price_history` dict as an association list; `None` as `Option`.
-/

/--
The constant `FARGATE_SIZES` from the source: vcpu tiers mapped to their memory-GB
options, listed here in the ascending key order that
`sorted(FARGATE_SIZES.keys())` produces.  `range(1, 4)` is `[1, 2, 3]`,
`range(2, 9)` is `[2, ..., 8]`, `range(4, 17)` is `[4, ..., 16]`,
`range(8, 31)` is `[8, ..., 30]`.
-/
def FARGATE_SIZES : List (ℚ × List ℚ) :=
  [(1/4, [1/2, 1, 2]),
   (1/2, [1, 2, 3]),
   (1, [2, 3, 4, 5, 6, 7, 8]),
   (2, [4, 5, 6, 7, 8, 9, 10, 11, 12, 13, 14, 15, 16]),
   (4, [8, 9, 10, 11, 12, 13, 14, 15, 16, 17, 18, 19, 20, 21, 22,
        23, 24, 25, 26, 27, 28, 29, 30])]

/--
The inner loop of `adjust_task_size`: scan a tier's memory options in
list order and return the first one strictly above `task_mem`
(`if task_mem < mem: return (cpu, mem)`), or `none` if the loop falls
through.
-/
def findMem (task_mem : ℚ) : List ℚ → Option ℚ
  | [] => none
  | m :: ms => if task_mem < m then some m else findMem task_mem ms

/--
The loop body of `adjust_task_size` over the (already sorted) tier list.
A tier whose CPU test `task_cpu < cpu * cpu_fudge_factor` fails, or whose
memory options are all exhausted, is skipped and the loop continues with
the remaining tiers; only a full fall-through of the outer loop yields
`(None, None)`, modelled as `none`.
-/
def adjustGo (task_cpu task_mem fudge : ℚ) : List (ℚ × List ℚ) → Option (ℚ × ℚ)
  | [] => none
  | (cpu, mems) :: rest =>
    if task_cpu < cpu * fudge then
      match findMem task_mem mems with
      | some m => some (cpu, m)
      | none => adjustGo task_cpu task_mem fudge rest
    else adjustGo task_cpu task_mem fudge rest

/--
The function `adjust_task_size(task_cpu, task_mem, cpu_fudge_factor)` from the source:
"Return a valid Fargate configuration for specified cpu and memory."
The Python return value `(cpu, mem)` or `(None, None)` is modelled as
`Option (ℚ × ℚ)`.
-/
def adjust_task_size (task_cpu task_mem fudge : ℚ) : Option (ℚ × ℚ) :=
  adjustGo task_cpu task_mem fudge FARGATE_SIZES

/--
Per-instance size record (`get_instance_info`): the `instance-type`
attribute may be absent (`get_attribute` returns `None`), hence
`Option String`; the four resource numbers are the `integerValue` fields.
-/
structure InstanceInfo where
  instance_type : Option String
  remaining_cpu : ℤ
  remaining_memory : ℤ
  total_cpu : ℤ
  total_memory : ℤ
deriving DecidableEq

/--
The per-cluster running-total dictionary.  The Python code reads missing
keys with `.get(key, 0)`, so the empty dictionary behaves like the
all-zero record `emptyTotal` below; `instance_type` is `none` while no
instance has been folded in.
-/
structure RunningTotal where
  instance_type : Option String
  instance_count : ℤ
  remaining_cpu : ℤ
  remaining_memory : ℤ
  total_cpu : ℤ
  total_memory : ℤ
deriving DecidableEq

/-- The empty running total (the empty dictionary that `get_container_stats` starts from). -/
def emptyTotal : RunningTotal :=
  { instance_type := none, instance_count := 0, remaining_cpu := 0,
    remaining_memory := 0, total_cpu := 0, total_memory := 0 }

/--
The function `add_to_running_total(info, total)` from the source: overwrite
`instance-type` with the incoming record's type, bump `instance-count`,
and add each resource field onto the running sum (missing keys default
to 0 via `.get`).
-/
def add_to_running_total (info : InstanceInfo) (total : RunningTotal) : RunningTotal :=
  { instance_type := info.instance_type,
    instance_count := total.instance_count + 1,
    remaining_cpu := total.remaining_cpu + info.remaining_cpu,
    remaining_memory := total.remaining_memory + info.remaining_memory,
    total_cpu := total.total_cpu + info.total_cpu,
    total_memory := total.total_memory + info.total_memory }

/-- Folding a list of instance records through `add_to_running_total`,
starting from the empty total, exactly as the loop in
`get_container_stats` does. -/
def aggregate (l : List InstanceInfo) : RunningTotal :=
  l.foldl (fun total info => add_to_running_total info total) emptyTotal

/--
The function `get_container_stats(client, cluster)`, with the paginated
`describe_container_instances` responses flattened into the list of
per-instance records it extracts.  The returned dictionary is empty
(falsy) exactly when the cluster has no container instances; that empty
dictionary is modelled as `none`.
-/
def get_container_stats (instances : List InstanceInfo) : Option RunningTotal :=
  match instances with
  | [] => none
  | _ :: _ => some (aggregate instances)

/--
One parsed price-list entry as `get_ec2_price` reads it: the
`product.attributes.usagetype` string and the USD rate reached through
`terms.OnDemand.<first offer>.priceDimensions.<first dimension>.pricePerUnit.USD`
(`usd := none` models a missing or empty `USD` string, for which the
Python `if list_price:` test is falsy).  Entries are assumed structurally
well formed (nonempty `OnDemand` / `priceDimensions` maps), which is the
shape the claims address.
-/
structure PriceEntry where
  usagetype : String
  usd : Option ℚ
deriving DecidableEq

/--
The scan of `response['PriceList']` inside `get_ec2_price`: the first
entry whose usage type ends in `UnusedBox:<instance_type>` and carries a
truthy USD rate yields `float(list_price) * (1 - aws_discount)`; a
matching entry without a usable rate is skipped and the loop continues.
-/
def findPrice (instance_type : String) (aws_discount : ℚ) : List PriceEntry → Option ℚ
  | [] => none
  | e :: rest =>
    if e.usagetype.endsWith ("UnusedBox:" ++ instance_type) then
      match e.usd with
      | some lp => some (lp * (1 - aws_discount))
      | none => findPrice instance_type aws_discount rest
    else findPrice instance_type aws_discount rest

/--
The function `get_ec2_price(instance_type, aws_discount, region)` with the global
`price_history` dictionary passed as explicit state (an association
list) and the remote pricing collaborator abstracted as `env`, the
price list returned by `client.get_products` for a given instance type
(the region and the fixed filters are baked into `env`).  The result is
`(returned price, updated history, number of remote queries issued)`.
A cache hit returns the stored value without querying; only a
successfully extracted price is stored back into the history — a `None`
result is not cached.
-/
def get_ec2_price (env : String → List PriceEntry) (instance_type : String)
    (aws_discount : ℚ) (hist : List (String × ℚ)) :
    Option ℚ × List (String × ℚ) × ℕ :=
  match List.lookup instance_type hist with
  | some price => (some price, hist, 0)
  | none =>
    match findPrice instance_type aws_discount (env instance_type) with
    | some price => (some price, (instance_type, price) :: hist, 1)
    | none => (none, hist, 1)

/--
The function `get_fargate_cpu_price(fargate_discount, region)`: cached under the key
`"fargate_cpu"` in the shared `price_history`; on a miss it reads only
the head of the returned price list (`pricelist[0]`), and returns `None`
when the list is empty or the head entry carries no truthy USD rate.
`pricelist` abstracts the collaborator's response for the per-CPU query.
-/
def get_fargate_cpu_price (pricelist : List PriceEntry) (fargate_discount : ℚ)
    (hist : List (String × ℚ)) : Option ℚ × List (String × ℚ) × ℕ :=
  match List.lookup "fargate_cpu" hist with
  | some price => (some price, hist, 0)
  | none =>
    match pricelist with
    | [] => (none, hist, 1)
    | e :: _ =>
      match e.usd with
      | some lp => (some (lp * (1 - fargate_discount)),
                    ("fargate_cpu", lp * (1 - fargate_discount)) :: hist, 1)
      | none => (none, hist, 1)

/-- The function `get_fargate_memory_price(fargate_discount, region)`: identical to the
CPU lookup but cached under `"fargate_memory"`. -/
def get_fargate_memory_price (pricelist : List PriceEntry) (fargate_discount : ℚ)
    (hist : List (String × ℚ)) : Option ℚ × List (String × ℚ) × ℕ :=
  match List.lookup "fargate_memory" hist with
  | some price => (some price, hist, 0)
  | none =>
    match pricelist with
    | [] => (none, hist, 1)
    | e :: _ =>
      match e.usd with
      | some lp => (some (lp * (1 - fargate_discount)),
                    ("fargate_memory", lp * (1 - fargate_discount)) :: hist, 1)
      | none => (none, hist, 1)

/--
Calling `get_ec2_price` `n` times in sequence within one run, threading
the `price_history` state: returns the list of the `n` results, the
final history, and the total number of remote queries issued.
-/
def callN_ec2 (env : String → List PriceEntry) (k : String) (d : ℚ) :
    ℕ → List (String × ℚ) → List (Option ℚ) × List (String × ℚ) × ℕ
  | 0, hist => ([], hist, 0)
  | n + 1, hist =>
    let step := get_ec2_price env k d hist
    let next := callN_ec2 env k d n step.2.1
    (step.1 :: next.1, next.2.1, step.2.2 + next.2.2)

/--
A spreadsheet cell value as handed to `worksheet.write`: `None` (written
as a blank cell), a string (formula strings included, written here via
explicit concatenation instead of `str.format`), or a number.
-/
inductive Cell where
  | blank : Cell
  | str : String → Cell
  | int : ℤ → Cell
  | num : ℚ → Cell
deriving DecidableEq

/-- The effect of `worksheet.write` on a possibly-`None` price: `None` produces a blank cell. -/
def cellOfPrice : Option ℚ → Cell
  | some p => Cell.num p
  | none => Cell.blank

/-- The effect of `worksheet.write` on a possibly-`None` instance type. -/
def cellOfType : Option String → Cell
  | some s => Cell.str s
  | none => Cell.blank

/-- The short name `cluster.split("/")[1]`; cluster ARNs always contain a `/`, and the
out-of-range case of the Python index is totalized to `""`. -/
def clusterShortName (arn : String) : String :=
  (arn.splitOn "/").getD 1 ""

/--
One data row of the "EC2 Usage" sheet, exactly the 13-element list passed
to `add_row_to_sheet`; `r` is the 1-based spreadsheet row number
(`row + 1` in the source) interpolated into the formula strings.
-/
def ec2Row (cluster : String) (t : RunningTotal) (price : Option ℚ) (r : ℕ) : List Cell :=
  [Cell.str (clusterShortName cluster),
   cellOfType t.instance_type,
   Cell.int t.instance_count,
   cellOfPrice price,
   Cell.str ("=C" ++ toString r ++ "*D" ++ toString r),
   Cell.str ("=H" ++ toString r ++ "-G" ++ toString r),
   Cell.int t.remaining_cpu,
   Cell.int t.total_cpu,
   Cell.str ("=K" ++ toString r ++ "-J" ++ toString r),
   Cell.int t.remaining_memory,
   Cell.int t.total_memory,
   Cell.str ("=G" ++ toString r ++ "/H" ++ toString r),
   Cell.str ("=J" ++ toString r ++ "/K" ++ toString r)]

/-- The header row written at row 0 of the "EC2 Usage" sheet. -/
def ec2Header : List Cell :=
  [Cell.str "Cluster", Cell.str "Instance Type", Cell.str "Instance Count",
   Cell.str "Instance $/Hr", Cell.str "Total $/Hr", Cell.str "Used CPU",
   Cell.str "Unused CPU", Cell.str "Total CPU", Cell.str "Used Memory",
   Cell.str "Unused Memory", Cell.str "Total Memory", Cell.str "Wasted CPU",
   Cell.str "Wasted Memory"]

/--
The data-row loop of `create_ec2_sheet`: clusters whose total is the
empty dictionary (`if totals:` falsy, modelled `none`) are skipped and do
not advance the row counter; for the others the per-instance price is
looked up by instance type (`priceOf` abstracts `get_ec2_price` with its
discount, region, and cache state fixed).
-/
def ec2Rows (priceOf : Option String → Option ℚ) :
    ℕ → List (String × Option RunningTotal) → List (List Cell)
  | _, [] => []
  | row, (_, none) :: rest => ec2Rows priceOf row rest
  | row, (c, some t) :: rest =>
      ec2Row c t (priceOf t.instance_type) (row + 2) :: ec2Rows priceOf (row + 1) rest

/--
The function `create_ec2_sheet` as the logical sheet content it writes: the header row
followed by one data row per cluster with a non-empty usage total, in the
order of the given (sorted) association list.
-/
def create_ec2_sheet (cluster_totals : List (String × Option RunningTotal))
    (priceOf : Option String → Option ℚ) : List (List Cell) :=
  ec2Header :: ec2Rows priceOf 0 cluster_totals

/-- All (vcpu, memoryGB) pairs of a tier list, flattened tier by tier in
catalog order. -/
def tierPairs : List (ℚ × List ℚ) → List (ℚ × ℚ)
  | [] => []
  | (cpu, mems) :: rest => (mems.map fun m => (cpu, m)) ++ tierPairs rest

/--
Modelled from the spec: the claimed first-tier-only normalizer —
"iterate vcpu tiers in ascending numeric order; for the first tier where
`requiredVcpu < tierVcpu * fudgeFactor`, iterate that tier's memory
options in ascending order and return the first option where
`requiredMemoryGB < option`", with no result if that single tier's
options are exhausted.
-/
def adjust_task_size_firstTier (task_cpu task_mem fudge : ℚ) : Option (ℚ × ℚ) :=
  match FARGATE_SIZES.find? (fun p => decide (task_cpu < p.1 * fudge)) with
  | none => none
  | some (cpu, mems) => (findMem task_mem mems).map fun m => (cpu, m)

/-- The instance record of the spec's end-to-end scenario: an EC2-family
instance registering 4096 CPU units and 8192 MB with half of each
remaining. -/
def demoInstance : InstanceInfo :=
  { instance_type := some "c5.xlarge", remaining_cpu := 2048,
    remaining_memory := 4096, total_cpu := 4096, total_memory := 8192 }

/-! ## Helper lemmas -/

lemma adjustGo_cons_pos_some {tc tm f c m : ℚ} {mems : List ℚ}
    {rest : List (ℚ × List ℚ)} (hc : tc < c * f) (hm : findMem tm mems = some m) :
    adjustGo tc tm f ((c, mems) :: rest) = some (c, m) := by
  simp [adjustGo, hc, hm]

lemma adjustGo_cons_pos_none {tc tm f c : ℚ} {mems : List ℚ}
    {rest : List (ℚ × List ℚ)} (hc : tc < c * f) (hm : findMem tm mems = none) :
    adjustGo tc tm f ((c, mems) :: rest) = adjustGo tc tm f rest := by
  simp [adjustGo, hc, hm]

lemma adjustGo_cons_neg {tc tm f c : ℚ} {mems : List ℚ}
    {rest : List (ℚ × List ℚ)} (hc : ¬ tc < c * f) :
    adjustGo tc tm f ((c, mems) :: rest) = adjustGo tc tm f rest := by
  simp [adjustGo, hc]

/-- A memory option returned by the inner scan belongs to the option list
and strictly exceeds the requirement. -/
lemma findMem_sound {tm : ℚ} {mems : List ℚ} {m : ℚ}
    (h : findMem tm mems = some m) : m ∈ mems ∧ tm < m := by
  induction mems with
  | nil => simp [findMem] at h
  | cons x ms ih =>
    rw [findMem] at h
    by_cases hx : tm < x
    · rw [if_pos hx] at h
      injection h with h
      subst h
      exact ⟨List.mem_cons_self _ _, hx⟩
    · rw [if_neg hx] at h
      obtain ⟨h1, h2⟩ := ih h
      exact ⟨List.mem_cons_of_mem _ h1, h2⟩

/-- Lowering the memory requirement keeps the inner scan successful and
never increases the option it picks. -/
lemma findMem_mono {tm₁ tm₂ : ℚ} (hle : tm₁ ≤ tm₂) {mems : List ℚ} {m₂ : ℚ}
    (h : findMem tm₂ mems = some m₂) :
    ∃ m₁, findMem tm₁ mems = some m₁ ∧ m₁ ≤ m₂ := by
  induction mems with
  | nil => simp [findMem] at h
  | cons x ms ih =>
    rw [findMem] at h
    by_cases h2 : tm₂ < x
    · rw [if_pos h2] at h
      injection h with h
      subst h
      exact ⟨x, by rw [findMem, if_pos (lt_of_le_of_lt hle h2)], le_refl _⟩
    · rw [if_neg h2] at h
      by_cases h1 : tm₁ < x
      · refine ⟨x, by rw [findMem, if_pos h1], ?_⟩
        exact le_of_lt (lt_of_le_of_lt (le_of_not_lt h2) (findMem_sound h).2)
      · obtain ⟨m₁, hm₁, hle'⟩ := ih h
        exact ⟨m₁, by rw [findMem, if_neg h1]; exact hm₁, hle'⟩

/-- Soundness of the tier scan: a returned pair comes from the tier list
and accommodates the request under the fudge factor. -/
lemma adjustGo_mem {tc tm f : ℚ} {L : List (ℚ × List ℚ)} {v m : ℚ}
    (h : adjustGo tc tm f L = some (v, m)) :
    ∃ mems, (v, mems) ∈ L ∧ m ∈ mems ∧ tc < v * f ∧ tm < m := by
  induction L with
  | nil => simp [adjustGo] at h
  | cons p rest ih =>
    obtain ⟨c, mems⟩ := p
    by_cases hc : tc < c * f
    · cases hm : findMem tm mems with
      | some m' =>
        rw [adjustGo_cons_pos_some hc hm] at h
        injection h with h
        obtain ⟨h1, h2⟩ := Prod.mk.injEq .. ▸ h
        subst h1; subst h2
        obtain ⟨hmem, hlt⟩ := findMem_sound hm
        exact ⟨mems, List.mem_cons_self _ _, hmem, hc, hlt⟩
      | none =>
        rw [adjustGo_cons_pos_none hc hm] at h
        obtain ⟨ms, h1, h2, h3, h4⟩ := ih h
        exact ⟨ms, List.mem_cons_of_mem _ h1, h2, h3, h4⟩
    · rw [adjustGo_cons_neg hc] at h
      obtain ⟨ms, h1, h2, h3, h4⟩ := ih h
      exact ⟨ms, List.mem_cons_of_mem _ h1, h2, h3, h4⟩

/-- Raising the fudge factor keeps the tier scan successful and never
increases the chosen tier's vcpu, provided the tier keys are positive and
listed in ascending order. -/
lemma adjustGo_fudge_mono {tc tm f₁ f₂ : ℚ} (hf : f₁ ≤ f₂)
    {L : List (ℚ × List ℚ)} (hpos : ∀ p ∈ L, 0 < p.1)
    (hsorted : L.Pairwise fun p q => p.1 ≤ q.1)
    {v₁ m₁ : ℚ} (h : adjustGo tc tm f₁ L = some (v₁, m₁)) :
    ∃ v₂ m₂, adjustGo tc tm f₂ L = some (v₂, m₂) ∧ v₂ ≤ v₁ := by
  induction L with
  | nil => simp [adjustGo] at h
  | cons p rest ih =>
    obtain ⟨c, mems⟩ := p
    have hc_pos : 0 < c := hpos _ (List.mem_cons_self _ _)
    have hpos' : ∀ q ∈ rest, 0 < q.1 := fun q hq => hpos q (List.mem_cons_of_mem _ hq)
    have hhead := (List.pairwise_cons.mp hsorted).1
    have hsorted' := (List.pairwise_cons.mp hsorted).2
    by_cases h1 : tc < c * f₁
    · have h2 : tc < c * f₂ :=
        lt_of_lt_of_le h1 (mul_le_mul_of_nonneg_left hf (le_of_lt hc_pos))
      cases hm : findMem tm mems with
      | some m' =>
        rw [adjustGo_cons_pos_some h1 hm] at h
        injection h with h
        obtain ⟨hv, _⟩ := Prod.mk.injEq .. ▸ h
        exact ⟨c, m', adjustGo_cons_pos_some h2 hm, le_of_eq hv⟩
      | none =>
        rw [adjustGo_cons_pos_none h1 hm] at h
        rw [adjustGo_cons_pos_none h2 hm]
        exact ih hpos' hsorted' h
    · rw [adjustGo_cons_neg h1] at h
      obtain ⟨ms, hmem, -, -, -⟩ := adjustGo_mem h
      have hcv : c ≤ v₁ := hhead (v₁, ms) hmem
      by_cases h2 : tc < c * f₂
      · cases hm : findMem tm mems with
        | some m' => exact ⟨c, m', adjustGo_cons_pos_some h2 hm, hcv⟩
        | none =>
          rw [adjustGo_cons_pos_none h2 hm]
          exact ih hpos' hsorted' h
      · rw [adjustGo_cons_neg h2]
        exact ih hpos' hsorted' h

/-- Lowering both requirements keeps the tier scan successful and moves
the result weakly down the catalog: a strictly earlier tier, or the same
tier with a memory option no larger, provided the tier keys are strictly
ascending. -/
lemma adjustGo_input_mono {tc₁ tm₁ tc₂ tm₂ f : ℚ} (hc : tc₁ ≤ tc₂) (hm : tm₁ ≤ tm₂)
    {L : List (ℚ × List ℚ)} (hsorted : L.Pairwise fun p q => p.1 < q.1)
    {v₂ m₂ : ℚ} (h : adjustGo tc₂ tm₂ f L = some (v₂, m₂)) :
    ∃ v₁ m₁, adjustGo tc₁ tm₁ f L = some (v₁, m₁) ∧
      (v₁ < v₂ ∨ (v₁ = v₂ ∧ m₁ ≤ m₂)) := by
  induction L with
  | nil => simp [adjustGo] at h
  | cons p rest ih =>
    obtain ⟨c, mems⟩ := p
    have hhead := (List.pairwise_cons.mp hsorted).1
    have hsorted' := (List.pairwise_cons.mp hsorted).2
    by_cases h2 : tc₂ < c * f
    · have h1 : tc₁ < c * f := lt_of_le_of_lt hc h2
      cases hmm : findMem tm₂ mems with
      | some m' =>
        rw [adjustGo_cons_pos_some h2 hmm] at h
        injection h with h
        obtain ⟨hv, hmem'⟩ := Prod.mk.injEq .. ▸ h
        obtain ⟨m₁, hm₁, hle₁⟩ := findMem_mono hm hmm
        exact ⟨c, m₁, adjustGo_cons_pos_some h1 hm₁,
          Or.inr ⟨hv, le_trans hle₁ (le_of_eq hmem')⟩⟩
      | none =>
        rw [adjustGo_cons_pos_none h2 hmm] at h
        obtain ⟨ms, hmem, -, -, -⟩ := adjustGo_mem h
        have hcv : c < v₂ := hhead (v₂, ms) hmem
        cases hmm₁ : findMem tm₁ mems with
        | some m₁ =>
          exact ⟨c, m₁, adjustGo_cons_pos_some h1 hmm₁, Or.inl hcv⟩
        | none =>
          rw [adjustGo_cons_pos_none h1 hmm₁]
          exact ih hsorted' h
    · rw [adjustGo_cons_neg h2] at h
      obtain ⟨ms, hmem, -, -, -⟩ := adjustGo_mem h
      have hcv : c < v₂ := hhead (v₂, ms) hmem
      by_cases h1 : tc₁ < c * f
      · cases hmm₁ : findMem tm₁ mems with
        | some m₁ =>
          exact ⟨c, m₁, adjustGo_cons_pos_some h1 hmm₁, Or.inl hcv⟩
        | none =>
          rw [adjustGo_cons_pos_none h1 hmm₁]
          exact ih hsorted' h
      · rw [adjustGo_cons_neg h1]
        exact ih hsorted' h

lemma find?_memBlock_pos {tc tm f c : ℚ} (h : tc < c * f) (mems : List ℚ)
    (tail : List (ℚ × ℚ)) :
    ((mems.map fun m => (c, m)) ++ tail).find?
        (fun p => decide (tc < p.1 * f) && decide (tm < p.2)) =
      match findMem tm mems with
      | some m => some (c, m)
      | none => tail.find? (fun p => decide (tc < p.1 * f) && decide (tm < p.2)) := by
  induction mems with
  | nil => simp [findMem]
  | cons m ms ih =>
    rw [List.map_cons, List.cons_append, findMem]
    by_cases hm : tm < m
    · rw [if_pos hm, List.find?_cons_of_pos _ (by simp [h, hm])]
    · rw [if_neg hm, List.find?_cons_of_neg _ (by simp [hm]), ih]

lemma find?_memBlock_neg {tc tm f c : ℚ} (h : ¬ tc < c * f) (mems : List ℚ)
    (tail : List (ℚ × ℚ)) :
    ((mems.map fun m => (c, m)) ++ tail).find?
        (fun p => decide (tc < p.1 * f) && decide (tm < p.2)) =
      tail.find? (fun p => decide (tc < p.1 * f) && decide (tm < p.2)) := by
  induction mems with
  | nil => simp
  | cons m ms ih =>
    rw [List.map_cons, List.cons_append, List.find?_cons_of_neg _ (by simp [h]), ih]

/-- The tier scan is the first-match search over the flattened catalog:
tier by tier in catalog order, memory options in option order. -/
lemma adjustGo_eq_find? (tc tm f : ℚ) (L : List (ℚ × List ℚ)) :
    adjustGo tc tm f L =
      (tierPairs L).find? (fun p => decide (tc < p.1 * f) && decide (tm < p.2)) := by
  induction L with
  | nil => rfl
  | cons p rest ih =>
    obtain ⟨c, mems⟩ := p
    rw [tierPairs]
    by_cases hcf : tc < c * f
    · rw [find?_memBlock_pos hcf]
      cases hm : findMem tm mems with
      | some m => simp [adjustGo, hcf, hm]
      | none => simp only [adjustGo, if_pos hcf, hm]; exact ih
    · rw [find?_memBlock_neg hcf]
      simp only [adjustGo, if_neg hcf]
      exact ih

lemma mem_tierPairs {c m : ℚ} {ms : List ℚ} {L : List (ℚ × List ℚ)}
    (hL : (c, ms) ∈ L) (hm : m ∈ ms) : (c, m) ∈ tierPairs L := by
  induction L with
  | nil => simp at hL
  | cons p rest ih =>
    obtain ⟨c', ms'⟩ := p
    rw [tierPairs, List.mem_append]
    rcases List.mem_cons.mp hL with heq | htail
    · left
      obtain ⟨h1, h2⟩ := Prod.mk.injEq .. ▸ heq
      subst h1; subst h2
      exact List.mem_map.mpr ⟨m, hm, rfl⟩
    · right
      exact ih htail

lemma foldl_total_count (l : List InstanceInfo) : ∀ t0 : RunningTotal,
    (l.foldl (fun total info => add_to_running_total info total) t0).instance_count
      = t0.instance_count + l.length := by
  induction l with
  | nil => intro t0; simp
  | cons i l' ih =>
    intro t0
    rw [List.foldl_cons, ih]
    simp [add_to_running_total]
    ring

lemma foldl_total_remaining_cpu (l : List InstanceInfo) : ∀ t0 : RunningTotal,
    (l.foldl (fun total info => add_to_running_total info total) t0).remaining_cpu
      = t0.remaining_cpu + (l.map fun i => i.remaining_cpu).sum := by
  induction l with
  | nil => intro t0; simp
  | cons i l' ih =>
    intro t0
    rw [List.foldl_cons, ih]
    simp [add_to_running_total]
    ring

lemma foldl_total_remaining_memory (l : List InstanceInfo) : ∀ t0 : RunningTotal,
    (l.foldl (fun total info => add_to_running_total info total) t0).remaining_memory
      = t0.remaining_memory + (l.map fun i => i.remaining_memory).sum := by
  induction l with
  | nil => intro t0; simp
  | cons i l' ih =>
    intro t0
    rw [List.foldl_cons, ih]
    simp [add_to_running_total]
    ring

lemma foldl_total_total_cpu (l : List InstanceInfo) : ∀ t0 : RunningTotal,
    (l.foldl (fun total info => add_to_running_total info total) t0).total_cpu
      = t0.total_cpu + (l.map fun i => i.total_cpu).sum := by
  induction l with
  | nil => intro t0; simp
  | cons i l' ih =>
    intro t0
    rw [List.foldl_cons, ih]
    simp [add_to_running_total]
    ring

lemma foldl_total_total_memory (l : List InstanceInfo) : ∀ t0 : RunningTotal,
    (l.foldl (fun total info => add_to_running_total info total) t0).total_memory
      = t0.total_memory + (l.map fun i => i.total_memory).sum := by
  induction l with
  | nil => intro t0; simp
  | cons i l' ih =>
    intro t0
    rw [List.foldl_cons, ih]
    simp [add_to_running_total]
    ring

lemma foldl_total_type (l : List InstanceInfo) : ∀ t0 : RunningTotal,
    (l.foldl (fun total info => add_to_running_total info total) t0).instance_type
      = match l.getLast? with
        | none => t0.instance_type
        | some i => i.instance_type := by
  induction l with
  | nil => intro t0; rfl
  | cons i l' ih =>
    intro t0
    rw [List.foldl_cons, ih]
    cases l' with
    | nil => rfl
    | cons j l'' =>
      rw [List.getLast?_cons_cons]
      cases h : (j :: l'').getLast? with
      | none => simp at h
      | some k => rfl

lemma get_ec2_price_hit {env : String → List PriceEntry} {k : String} {d : ℚ}
    {hist : List (String × ℚ)} {p : ℚ} (h : List.lookup k hist = some p) :
    get_ec2_price env k d hist = (some p, hist, 0) := by
  simp [get_ec2_price, h]

lemma get_ec2_price_miss_found {env : String → List PriceEntry} {k : String} {d : ℚ}
    {hist : List (String × ℚ)} {p : ℚ} (h : List.lookup k hist = none)
    (hf : findPrice k d (env k) = some p) :
    get_ec2_price env k d hist = (some p, (k, p) :: hist, 1) := by
  simp [get_ec2_price, h, hf]

lemma get_ec2_price_miss_notfound {env : String → List PriceEntry} {k : String} {d : ℚ}
    {hist : List (String × ℚ)} (h : List.lookup k hist = none)
    (hf : findPrice k d (env k) = none) :
    get_ec2_price env k d hist = (none, hist, 1) := by
  simp [get_ec2_price, h, hf]

/-- Once the key is cached, every further call returns the stored value and
issues no query at all. -/
lemma callN_ec2_hit {env : String → List PriceEntry} {k : String} {d : ℚ}
    {hist : List (String × ℚ)} {p : ℚ} (h : List.lookup k hist = some p) (n : ℕ) :
    callN_ec2 env k d n hist = (List.replicate n (some p), hist, 0) := by
  induction n with
  | zero => simp [callN_ec2]
  | succ n ih => simp [callN_ec2, get_ec2_price_hit h, ih, List.replicate_succ]

/-- An unpriced key is never cached: every call re-issues the query and
returns `None` again. -/
lemma callN_ec2_notfound {env : String → List PriceEntry} {k : String} {d : ℚ}
    {hist : List (String × ℚ)} (h : List.lookup k hist = none)
    (hf : findPrice k d (env k) = none) (n : ℕ) :
    callN_ec2 env k d n hist = (List.replicate n none, hist, n) := by
  induction n with
  | zero => simp [callN_ec2]
  | succ n ih =>
    simp [callN_ec2, get_ec2_price_miss_notfound h hf, ih, List.replicate_succ]
    omega

lemma ec2Rows_filter (priceOf : Option String → Option ℚ)
    (ts : List (String × Option RunningTotal)) : ∀ row : ℕ,
    ec2Rows priceOf row (ts.filter fun p => p.2.isSome) = ec2Rows priceOf row ts := by
  induction ts with
  | nil => intro row; rfl
  | cons p rest ih =>
    intro row
    obtain ⟨c, t?⟩ := p
    cases t? with
    | none => rw [List.filter_cons]; simp [ec2Rows, ih]
    | some t => rw [List.filter_cons]; simp [ec2Rows, ih]

/-! ## Claim theorems -/

/--
Claim C1 (counterexample): the claim says `adjust_task_size` on
cpuUnits=1024, memMB=1024 (i.e. requiredVcpu = 1.0, requiredMemoryGB =
1.0) with fudgeFactor = 1.0 returns the tier (vcpu = 1, memoryGB = 2).
It does not: the strict CPU test `1.0 < 1 * 1.0` fails, so the scan
skips the whole 1-vCPU tier and lands on the 2-vCPU tier, whose first
memory option 4 already exceeds 1.0 — the code returns (2, 4), not
(1, 2).
-/
theorem boundary_one_vcpu_counterexample :
    adjust_task_size 1 1 1 = some (2, 4) ∧ adjust_task_size 1 1 1 ≠ some (1, 2) := by
  constructor
  · norm_num [adjust_task_size, adjustGo, FARGATE_SIZES, findMem]
  · norm_num [adjust_task_size, adjustGo, FARGATE_SIZES, findMem]

/--
Claim C1 (amended): for cpuUnits=1024, memMB=1024 (requiredVcpu = 1.0,
requiredMemoryGB = 1.0) and fudgeFactor = 1.0, the strict less-than at
the CPU level rejects the exact 1-vCPU boundary, the scan escalates to
the 2-vCPU tier, and the first memory option there (4 GB) already
accommodates 1.0 GB, so the normalizer returns (vcpu = 2, memoryGB = 4).
-/
theorem boundary_one_vcpu_amended :
    adjust_task_size 1 1 1 = some (2, 4) := by
  norm_num [adjust_task_size, adjustGo, FARGATE_SIZES, findMem]

/--
Claim C2: end-to-end scenario — folding two instance records, each with
total_cpu = 4096, total_memory = 8192, remaining_cpu = 2048,
remaining_memory = 4096, through `add_to_running_total` from the empty
total yields instance-count 2, total_cpu 8192, remaining_cpu 4096,
total_memory 16384, remaining_memory 8192; and
`adjust_task_size(0.5, 1.0, 1.0)` returns the tier (vcpu = 1,
memoryGB = 2).
-/
theorem end_to_end_demo_scenario :
    (aggregate [demoInstance, demoInstance]).instance_count = 2 ∧
    (aggregate [demoInstance, demoInstance]).total_cpu = 8192 ∧
    (aggregate [demoInstance, demoInstance]).remaining_cpu = 4096 ∧
    (aggregate [demoInstance, demoInstance]).total_memory = 16384 ∧
    (aggregate [demoInstance, demoInstance]).remaining_memory = 8192 ∧
    adjust_task_size (1/2) 1 1 = some (1, 2) := by
  refine ⟨rfl, rfl, rfl, rfl, rfl, ?_⟩
  norm_num [adjust_task_size, adjustGo, FARGATE_SIZES, findMem]

/--
Claim C3 (counterexample): the claim says the result, if any, always comes
from the *first* tier passing the CPU test.  At input
(cpu = 0.1, mem = 5, fudge = 1.0) the first CPU-passing tier is 0.25
vCPU, whose options {0.5, 1, 2} are all ≤ 5, so the claimed algorithm
(`adjust_task_size_firstTier`, modelled from the spec's words) yields no
result — but the code keeps scanning and returns (1, 6) from the 1-vCPU
tier.
-/
theorem first_tier_scan_counterexample :
    adjust_task_size (1/10) 5 1 = some (1, 6) ∧
    adjust_task_size_firstTier (1/10) 5 1 = none := by
  constructor <;>
    norm_num [adjust_task_size, adjustGo, FARGATE_SIZES, findMem,
      adjust_task_size_firstTier, List.find?]

/--
Claim C3 (amended): the normalizer scans vcpu tiers in ascending order and,
inside each tier passing the CPU test, the memory options in ascending
order; it returns the *first* (tier, option) pair of this flattened scan
with `requiredVcpu < tierVcpu * fudge` and `requiredMemoryGB < option` —
continuing past a CPU-passing tier whose memory options are exhausted —
and returns NotFittable exactly when no catalog pair accommodates the
requirement.
-/
theorem adjust_task_size_scan_characterization (tc tm f : ℚ) :
    adjust_task_size tc tm f =
      (tierPairs FARGATE_SIZES).find?
        (fun p => decide (tc < p.1 * f) && decide (tm < p.2)) ∧
    (adjust_task_size tc tm f = none ↔
      ∀ p ∈ tierPairs FARGATE_SIZES, ¬ (tc < p.1 * f ∧ tm < p.2)) := by
  have h := adjustGo_eq_find? tc tm f FARGATE_SIZES
  refine ⟨h, ?_⟩
  rw [adjust_task_size, h, List.find?_eq_none]
  simp only [Bool.and_eq_true, decide_eq_true_eq, not_and]

/--
Claim C4 (counterexample): the claim says every key incurs at most 1
remote pricing query per run.  For a key the catalog cannot price
(empty price list), the `None` result is never stored in
`price_history`, so two calls issue two remote queries.
-/
theorem price_cache_requery_counterexample :
    (callN_ec2 (fun _ => []) "m5.large" 0 2 []).2.2 = 2 ∧
    ¬ (callN_ec2 (fun _ => []) "m5.large" 0 2 []).2.2 ≤ 1 := by
  have h : callN_ec2 (fun _ => ([] : List PriceEntry)) "m5.large" 0 2 [] =
      ([none, none], [], 2) := rfl
  rw [h]
  norm_num

/--
Claim C4 (amended): with a deterministic pricing collaborator, N calls for
one key in one run return identical results; if the first call extracts
a price, the run issues exactly 1 remote query in total (the hit path
returns the cached value with zero queries); if the key is unpriced, the
`None` result is not cached and each of the N calls re-issues the query
(N queries in total).
-/
theorem price_cache_idempotence_amended (env : String → List PriceEntry)
    (k : String) (d : ℚ) (n : ℕ) (hn : 1 ≤ n) :
    (callN_ec2 env k d n []).1 = List.replicate n (get_ec2_price env k d []).1 ∧
    (callN_ec2 env k d n []).2.2 =
      if (get_ec2_price env k d []).1.isSome then 1 else n := by
  have hl : List.lookup k ([] : List (String × ℚ)) = none := rfl
  cases hf : findPrice k d (env k) with
  | some p =>
    have h1 := get_ec2_price_miss_found hl hf
    obtain ⟨m, rfl⟩ : ∃ m, n = m + 1 := ⟨n - 1, by omega⟩
    have h2 := @callN_ec2_hit env k d [(k, p)] p (by simp [List.lookup]) m
    simp [callN_ec2, h1, h2, List.replicate_succ]
  | none =>
    rw [callN_ec2_notfound hl hf n, get_ec2_price_miss_notfound hl hf]
    simp

/-- Witness for the amended claim C4 at a concrete unpriced key and `n = 2`. -/
theorem price_cache_idempotence_amended_witness :
    1 ≤ 2 ∧
    ((callN_ec2 (fun _ => []) "m5.large" 0 2 []).1 =
        List.replicate 2 (get_ec2_price (fun _ => []) "m5.large" 0 []).1 ∧
      (callN_ec2 (fun _ => []) "m5.large" 0 2 []).2.2 =
        if (get_ec2_price (fun _ => []) "m5.large" 0 []).1.isSome then 1 else 2) :=
  ⟨by norm_num, price_cache_idempotence_amended (fun _ => []) "m5.large" 0 2 (by norm_num)⟩

/--
Claim C5: if the pricing collaborator returns no matching price-list
entries for a key, `get_ec2_price`, `get_fargate_cpu_price` and
`get_fargate_memory_price` all return `None` (with the cache unchanged,
one query issued, and no exception — the embedding is total), and the
EC2 report row built from that `None` price carries a blank price cell
(column D, index 3) rather than raising.
-/
theorem unpriced_propagation (env : String → List PriceEntry) (k : String) (d : ℚ)
    (hist : List (String × ℚ)) (c : String) (t : RunningTotal) (r : ℕ)
    (hk : List.lookup k hist = none) (henv : env k = [])
    (hcpu : List.lookup "fargate_cpu" hist = none)
    (hmem : List.lookup "fargate_memory" hist = none) :
    get_ec2_price env k d hist = (none, hist, 1) ∧
    get_fargate_cpu_price [] d hist = (none, hist, 1) ∧
    get_fargate_memory_price [] d hist = (none, hist, 1) ∧
    (ec2Row c t none r).get? 3 = some Cell.blank := by
  refine ⟨?_, ?_, ?_, rfl⟩
  · exact get_ec2_price_miss_notfound hk (by rw [henv]; rfl)
  · simp [get_fargate_cpu_price, hcpu]
  · simp [get_fargate_memory_price, hmem]

/-- Witness for claim C5: a fresh run (empty cache) and a collaborator with
no matching entries. -/
theorem unpriced_propagation_witness :
    (List.lookup "m5.large" ([] : List (String × ℚ)) = none ∧
      ([] : List PriceEntry) = [] ∧
      List.lookup "fargate_cpu" ([] : List (String × ℚ)) = none ∧
      List.lookup "fargate_memory" ([] : List (String × ℚ)) = none) ∧
    (get_ec2_price (fun _ => []) "m5.large" 0 [] = (none, [], 1) ∧
      get_fargate_cpu_price [] 0 [] = (none, [], 1) ∧
      get_fargate_memory_price [] 0 [] = (none, [], 1) ∧
      (ec2Row "demo-cluster/demo" emptyTotal none 2).get? 3 = some Cell.blank) :=
  ⟨⟨rfl, rfl, rfl, rfl⟩,
    unpriced_propagation (fun _ => []) "m5.large" 0 [] "demo-cluster/demo"
      emptyTotal 2 rfl rfl rfl rfl⟩

/--
Claim C6: fudge monotonicity — whenever both runs of the normalizer return
a tier, a larger fudge factor (f₂ > f₁ ≥ 1) never increases the chosen
tier's vcpu.  (Success is in fact preserved: `adjustGo_fudge_mono` shows
the f₂ scan succeeds whenever the f₁ scan does.)
-/
theorem fudge_monotonicity (tc tm f₁ f₂ v₁ m₁ v₂ m₂ : ℚ)
    (_hf₁ : 1 ≤ f₁) (hf : f₁ < f₂)
    (h₁ : adjust_task_size tc tm f₁ = some (v₁, m₁))
    (h₂ : adjust_task_size tc tm f₂ = some (v₂, m₂)) :
    v₂ ≤ v₁ := by
  obtain ⟨v₂', m₂', he, hle⟩ := adjustGo_fudge_mono (le_of_lt hf)
    (by norm_num [FARGATE_SIZES]) (by norm_num [FARGATE_SIZES]) h₁
  rw [adjust_task_size] at h₂
  obtain ⟨hv, -⟩ := Prod.mk.injEq .. ▸ Option.some.inj (he.symm.trans h₂)
  exact hv ▸ hle

/-- Witness for claim C6: (cpu, mem) = (0.75, 1.5); fudge 1 picks tier
(1, 2), fudge 2 picks tier (0.5, 2). -/
theorem fudge_monotonicity_witness :
    (1 : ℚ) ≤ 1 ∧ (1 : ℚ) < 2 ∧
    adjust_task_size (3/4) (3/2) 1 = some (1, 2) ∧
    adjust_task_size (3/4) (3/2) 2 = some (1/2, 2) ∧
    (1/2 : ℚ) ≤ 1 :=
  have h₁ : adjust_task_size (3/4) (3/2) 1 = some (1, 2) := by
    norm_num [adjust_task_size, adjustGo, FARGATE_SIZES, findMem]
  have h₂ : adjust_task_size (3/4) (3/2) 2 = some (1/2, 2) := by
    norm_num [adjust_task_size, adjustGo, FARGATE_SIZES, findMem]
  ⟨by norm_num, by norm_num, h₁, h₂,
    fudge_monotonicity (3/4) (3/2) 1 2 1 2 (1/2) 2 (by norm_num) (by norm_num) h₁ h₂⟩

/--
Claim C7: tier monotonicity — for inputs with cpu₁ < cpu₂ and mem₁ < mem₂
that both fit some tier at fudge 1.0, the first result never has
strictly more resources than the second: its vcpu is ≤, at equal vcpu
its memory is ≤, and in particular it never weakly dominates the second
in both components while differing from it.
-/
theorem tier_monotonicity (tc₁ tm₁ tc₂ tm₂ v₁ m₁ v₂ m₂ : ℚ)
    (hc : tc₁ < tc₂) (hm : tm₁ < tm₂)
    (h₁ : adjust_task_size tc₁ tm₁ 1 = some (v₁, m₁))
    (h₂ : adjust_task_size tc₂ tm₂ 1 = some (v₂, m₂)) :
    v₁ ≤ v₂ ∧ (v₁ = v₂ → m₁ ≤ m₂) ∧
      ¬ (v₂ ≤ v₁ ∧ m₂ ≤ m₁ ∧ (v₁, m₁) ≠ (v₂, m₂)) := by
  obtain ⟨v₁', m₁', he, hd⟩ := adjustGo_input_mono (le_of_lt hc) (le_of_lt hm)
    (by norm_num [FARGATE_SIZES]) h₂
  rw [adjust_task_size] at h₁
  obtain ⟨hv, hm'⟩ := Prod.mk.injEq .. ▸ Option.some.inj (he.symm.trans h₁)
  subst hv
  subst hm'
  obtain hlt | ⟨heqv, hlem⟩ := hd
  · refine ⟨le_of_lt hlt, fun hq => absurd hq (ne_of_lt hlt), ?_⟩
    rintro ⟨hv21, -, -⟩
    exact absurd hlt (not_lt.mpr hv21)
  · refine ⟨le_of_eq heqv, fun _ => hlem, ?_⟩
    rintro ⟨-, hm21, hne⟩
    exact hne (by rw [heqv, le_antisymm hlem hm21])

/-- Witness for claim C7: (0.2, 0.25) → tier (0.25, 0.5) and
(0.3, 0.5) → tier (0.5, 1). -/
theorem tier_monotonicity_witness :
    (1/5 : ℚ) < 3/10 ∧ (1/4 : ℚ) < 1/2 ∧
    adjust_task_size (1/5) (1/4) 1 = some (1/4, 1/2) ∧
    adjust_task_size (3/10) (1/2) 1 = some (1/2, 1) ∧
    ((1/4 : ℚ) ≤ 1/2 ∧ ((1/4 : ℚ) = 1/2 → (1/2 : ℚ) ≤ 1) ∧
      ¬ ((1/2 : ℚ) ≤ 1/4 ∧ (1 : ℚ) ≤ 1/2 ∧
        ((1/4 : ℚ), (1/2 : ℚ)) ≠ ((1/2 : ℚ), (1 : ℚ)))) :=
  have h₁ : adjust_task_size (1/5) (1/4) 1 = some (1/4, 1/2) := by
    norm_num [adjust_task_size, adjustGo, FARGATE_SIZES, findMem]
  have h₂ : adjust_task_size (3/10) (1/2) 1 = some (1/2, 1) := by
    norm_num [adjust_task_size, adjustGo, FARGATE_SIZES, findMem]
  ⟨by norm_num, by norm_num, h₁, h₂,
    tier_monotonicity (1/5) (1/4) (3/10) (1/2) (1/4) (1/2) (1/2) 1
      (by norm_num) (by norm_num) h₁ h₂⟩

/--
Claim C8: a cluster with zero instances yields the empty (absent) usage
total in `get_container_stats`, and `create_ec2_sheet` emits no data row
for clusters with an empty total — the sheet for any totals list equals
the sheet for its non-empty entries only, and a lone empty cluster
produces just the header row (so no division formula is ever emitted for
an empty total).
-/
theorem empty_cluster_no_row (ts : List (String × Option RunningTotal))
    (priceOf : Option String → Option ℚ) (c : String) :
    get_container_stats [] = none ∧
    create_ec2_sheet ts priceOf =
      create_ec2_sheet (ts.filter fun p => p.2.isSome) priceOf ∧
    create_ec2_sheet [(c, none)] priceOf = [ec2Header] := by
  refine ⟨rfl, ?_, rfl⟩
  rw [create_ec2_sheet, create_ec2_sheet, ec2Rows_filter]

/--
Claim C9: implicit postcondition of the normalizer — whenever
`adjust_task_size` returns a pair other than `(None, None)`, that pair
belongs to the fixed `FARGATE_SIZES` catalog (its vcpu is a catalog key
and its memory one of that key's options, i.e. it is one of the
flattened catalog pairs) and it accommodates the request:
`task_cpu < cpu * fudge` and `task_mem < mem`.
-/
theorem adjust_task_size_sound (tc tm f cpu mem : ℚ)
    (h : adjust_task_size tc tm f = some (cpu, mem)) :
    (cpu, mem) ∈ tierPairs FARGATE_SIZES ∧ tc < cpu * f ∧ tm < mem := by
  obtain ⟨mems, h1, h2, h3, h4⟩ := adjustGo_mem h
  exact ⟨mem_tierPairs h1 h2, h3, h4⟩

/-- Witness for claim C9 at input (0, 0, 1), which returns the smallest
tier (0.25, 0.5). -/
theorem adjust_task_size_sound_witness :
    adjust_task_size 0 0 1 = some (1/4, 1/2) ∧
    (((1/4 : ℚ), (1/2 : ℚ)) ∈ tierPairs FARGATE_SIZES ∧
      (0 : ℚ) < 1/4 * 1 ∧ (0 : ℚ) < 1/2) :=
  have h : adjust_task_size 0 0 1 = some (1/4, 1/2) := by
    norm_num [adjust_task_size, adjustGo, FARGATE_SIZES, findMem]
  ⟨h, adjust_task_size_sound 0 0 1 (1/4) (1/2) h⟩

/--
Claim C10: implicit aggregator invariant — folding any non-empty sequence
of instance records through `add_to_running_total` from the empty total
gives an instance count equal to the number of records, each numeric
field equal to the sum of that field over the records, and the
instance type of the last record folded.
-/
theorem aggregate_invariant (l : List InstanceInfo) (h : l ≠ []) :
    (aggregate l).instance_count = l.length ∧
    (aggregate l).remaining_cpu = (l.map fun i => i.remaining_cpu).sum ∧
    (aggregate l).remaining_memory = (l.map fun i => i.remaining_memory).sum ∧
    (aggregate l).total_cpu = (l.map fun i => i.total_cpu).sum ∧
    (aggregate l).total_memory = (l.map fun i => i.total_memory).sum ∧
    (aggregate l).instance_type = (l.getLast h).instance_type := by
  refine ⟨?_, ?_, ?_, ?_, ?_, ?_⟩
  · rw [aggregate, foldl_total_count]; simp [emptyTotal]
  · rw [aggregate, foldl_total_remaining_cpu]; simp [emptyTotal]
  · rw [aggregate, foldl_total_remaining_memory]; simp [emptyTotal]
  · rw [aggregate, foldl_total_total_cpu]; simp [emptyTotal]
  · rw [aggregate, foldl_total_total_memory]; simp [emptyTotal]
  · rw [aggregate, foldl_total_type, List.getLast?_eq_getLast l h]

/-- Witness for claim C10 on the one-record list `[demoInstance]`. -/
theorem aggregate_invariant_witness :
    [demoInstance] ≠ [] ∧
    ((aggregate [demoInstance]).instance_count = [demoInstance].length ∧
      (aggregate [demoInstance]).remaining_cpu =
        ([demoInstance].map fun i => i.remaining_cpu).sum ∧
      (aggregate [demoInstance]).remaining_memory =
        ([demoInstance].map fun i => i.remaining_memory).sum ∧
      (aggregate [demoInstance]).total_cpu =
        ([demoInstance].map fun i => i.total_cpu).sum ∧
      (aggregate [demoInstance]).total_memory =
        ([demoInstance].map fun i => i.total_memory).sum ∧
      (aggregate [demoInstance]).instance_type =
        ([demoInstance].getLast (List.cons_ne_nil _ _)).instance_type) :=
  ⟨List.cons_ne_nil _ _, aggregate_invariant [demoInstance] (List.cons_ne_nil _ _)⟩
